import Mathlib

/-!
Verification of the agent presence / off-queue reconstruction logic of the
QC-Dashboard repository (page "2-ورود و خروج.py", function `load_admin`).

Times are modelled as `Int` seconds (the source works at second granularity
on `queue_log.time` values); durations are `Int` seconds.  `pd.Timedelta(hours=4)`
is 14400 seconds, `pd.to_datetime("today")` is the evaluation instant `now`.
Event kinds are the two values the SQL query admits (`ADDMEMBER`, `REMOVEMEMBER`).
pandas `sort_values` leaves the order of equal keys unspecified; we model it
with a stable insertion sort, which agrees with it on all lists whose sort
keys are distinct.
-/

/-- The two event kinds the SQL query admits: `ADDMEMBER` (JOIN) and
`REMOVEMEMBER` (LEAVE). -/
inductive EventKind where
  | addmember
  | removemember
deriving DecidableEq, Repr

/-- One row of the `queue_log` query result: `time, agent, event, queuename`. -/
structure QEvent where
  time : Int
  agent : String
  event : EventKind
  queuename : String
deriving DecidableEq, Repr

/-- Comparison by timestamp, ascending (`sort_values(by='time')`). -/
def byTime (a b : QEvent) : Prop := a.time ≤ b.time

/-- Comparison by timestamp, descending (`sort_values(by='time', ascending=False)`). -/
def byTimeDesc (a b : QEvent) : Prop := b.time ≤ a.time

instance : DecidableRel byTime := fun a b => inferInstanceAs (Decidable (a.time ≤ b.time))

instance : DecidableRel byTimeDesc := fun a b => inferInstanceAs (Decidable (b.time ≤ a.time))

instance : IsTotal QEvent byTime := ⟨fun a b => Int.le_total a.time b.time⟩

instance : IsTrans QEvent byTime := ⟨fun _ _ _ h1 h2 => le_trans h1 h2⟩

instance : IsTotal QEvent byTimeDesc := ⟨fun a b => Int.le_total b.time a.time⟩

instance : IsTrans QEvent byTimeDesc := ⟨fun _ _ _ h1 h2 => le_trans h2 h1⟩

/-- `df.sort_values(by='time')`. -/
def sortByTime (l : List QEvent) : List QEvent := l.insertionSort byTime

/-- `df.sort_values(by='time', ascending=False)`. -/
def sortByTimeDesc (l : List QEvent) : List QEvent := l.insertionSort byTimeDesc

/-- `Series.unique()`: the values of a list in order of first occurrence.
`uniqAux l seen` keeps the elements of `l` not in `seen`, threading the set
of values already emitted. -/
def uniqAux : List String → List String → List String
  | [], _ => []
  | x :: xs, seen => if x ∈ seen then uniqAux xs seen else x :: uniqAux xs (x :: seen)

/-- `Series.unique()` on a list of strings (first-occurrence order). -/
def uniq (l : List String) : List String := uniqAux l []

/-- `CONFIG["queues"]` of the source page. -/
def CONFIG_queues : List String := ["5100", "5200", "5300", "5600"]

/-- `pd.Timedelta(hours=4)` in seconds: the `max_gap` cutoff of the source. -/
def max_gap : Int := 4 * 3600

/-- The inner search of lines 208-214 of the page: starting from the events
strictly after a `REMOVEMEMBER`, the time of the first `ADDMEMBER`, and `now`
(`pd.to_datetime("today")`) when none exists. -/
def firstAddTime (es : List QEvent) (now : Int) : Int :=
  match es with
  | [] => now
  | e :: rest => if e.event = .addmember then e.time else firstAddTime rest now

/-- Lines 204-217 of the page, for the (already time-sorted) events of one
agent on one queue: for every index `i` holding a `REMOVEMEMBER`, pair it with
the first `ADDMEMBER` strictly after it (or `now`), and add the difference to
the total when it is strictly below `maxGap`. -/
def queueOutTime (es : List QEvent) (now maxGap : Int) : Int :=
  match es with
  | [] => 0
  | e :: rest =>
      (if e.event = .removemember then
        let inT := firstAddTime rest now
        if inT - e.time < maxGap then inT - e.time else 0
      else 0)
      + queueOutTime rest now maxGap

/-- An off-queue interval as reconstructed by the scan: opened at a
`REMOVEMEMBER` timestamp, closed at the first following `ADDMEMBER` timestamp
(or at `now` when none follows). -/
structure OffInterval where
  leave_time : Int
  rejoin_time : Int
deriving DecidableEq, Repr

/-- The intervals the scan of lines 204-217 constructs: one per
`REMOVEMEMBER` event, closed at the first following `ADDMEMBER` (or `now`). -/
def queueIntervals (es : List QEvent) (now : Int) : List OffInterval :=
  match es with
  | [] => []
  | e :: rest =>
      (if e.event = .removemember then [⟨e.time, firstAddTime rest now⟩] else [])
      ++ queueIntervals rest now

/-- The spec's §3 disjointness of two reconstructed intervals: one ends no
later than the other starts. -/
def ivDisjoint (x y : OffInterval) : Bool :=
  decide (x.rejoin_time ≤ y.leave_time ∨ y.rejoin_time ≤ x.leave_time)

/-- `login_logout_df[login_logout_df['agent'] == voip_id]`. -/
def agentEvents (events : List QEvent) (a : String) : List QEvent :=
  events.filter (fun e => e.agent == a)

/-- Line 199: the agent rows sorted by time ascending. -/
def memberEvents (events : List QEvent) (a : String) : List QEvent :=
  sortByTime (agentEvents events a)

/-- Line 203: the agent rows of one queue, sorted by time ascending. -/
def queueEventsOf (mes : List QEvent) (q : String) : List QEvent :=
  sortByTime (mes.filter (fun e => e.queuename == q))

/-- Lines 199-217: the agent-level total, accumulated queue by queue over
`member_events['queuename'].unique()`. -/
def agentOutTime (events : List QEvent) (a : String) (now maxGap : Int) : Int :=
  let mes := memberEvents events a
  (uniq (mes.map (fun e => e.queuename))).foldl
    (fun acc q => acc + queueOutTime (queueEventsOf mes q) now maxGap) 0

/-- `DATE(time)`: the calendar day of a timestamp, as a day index. -/
def dateOf (t : Int) : Int := t / 86400

/-- Lines 158-166: an agent is listed "in line" when their event list over the
whole fetched window, sorted descending by time, is nonempty and starts with
`ADDMEMBER`. -/
def isInLine (events : List QEvent) (a : String) : Bool :=
  match sortByTimeDesc (agentEvents events a) with
  | [] => false
  | e :: _ => e.event == .addmember

/-- Lines 151-166: the set of agents shown in the "experts in line" table:
agents having at least one event dated `today`, filtered by `isInLine` over
the full window. -/
def inLineAgents (events : List QEvent) (today : Int) : List String :=
  (uniq ((events.filter (fun e => dateOf e.time == today)).map (fun e => e.agent))).filter
    (fun a => isInLine events a)

/-- Line 224: the reported integer seconds,
`components.hours * 3600 + components.minutes * 60 + components.seconds`
of the accumulated `Timedelta` (whole days are not part of the formula); the
guard mirrors `if total_out_time >= pd.Timedelta(0) else pd.Timedelta(0)`,
whose else branch is numerically zero seconds. -/
def reportedSeconds (T : Int) : Int :=
  if 0 ≤ T then
    let t := T.toNat
    Int.ofNat ((t % 86400) / 3600 * 3600 + (t % 3600) / 60 * 60 + t % 60)
  else 0

/-- Zero-padded two-digit decimal rendering of a component below 100. -/
def twoDigit (n : Nat) : String :=
  if n < 10 then "0" ++ toString n else toString n

/-- Line 233, `str(pd.Timedelta(seconds=x))` for a whole nonnegative number of
seconds: the pandas string form "D days HH:MM:SS". -/
def timedeltaStr (t : Nat) : String :=
  toString (t / 86400) ++ " days " ++ twoDigit ((t % 86400) / 3600) ++ ":"
    ++ twoDigit ((t % 3600) / 60) ++ ":" ++ twoDigit (t % 60)

/-- The spec's §6 report-output format for the formatted column: exactly
"HH:MM:SS", eight characters, two-digit groups separated by colons. -/
def isHHMMSS (s : String) : Bool :=
  match s.toList with
  | [h1, h2, c1, m1, m2, c2, s1, s2] =>
      h1.isDigit && h2.isDigit && c1 == ':' && m1.isDigit && m2.isDigit && c2 == ':'
        && s1.isDigit && s2.isDigit
  | _ => false

/-- One row of the report of lines 219-235: agent, reported seconds, and the
formatted duration column. -/
structure ReportRow where
  name : String
  seconds : Int
  formatted : String
deriving DecidableEq, Repr

/-- Comparison of report rows by the seconds column, descending
(line 235, `sort_values(..., ascending=False)`). -/
def bySecondsDesc (a b : ReportRow) : Prop := b.seconds ≤ a.seconds

instance : DecidableRel bySecondsDesc := fun a b => inferInstanceAs (Decidable (b.seconds ≤ a.seconds))

instance : IsTotal ReportRow bySecondsDesc := ⟨fun a b => Int.le_total b.seconds a.seconds⟩

instance : IsTrans ReportRow bySecondsDesc := ⟨fun _ _ _ h1 h2 => le_trans h2 h1⟩

/-- Lines 192-234: one report row per agent of the fetched window, in
`unique()` order, with the seconds column of line 224 and the formatted
column of lines 232-234. -/
def reportRows (events : List QEvent) (now maxGap : Int) : List ReportRow :=
  (uniq (events.map (fun e => e.agent))).map (fun a =>
    let secs := reportedSeconds (agentOutTime events a now maxGap)
    ⟨a, secs, timedeltaStr secs.toNat⟩)

/-- Line 235: the report sorted descending by the seconds column. -/
def sortReport (rows : List ReportRow) : List ReportRow :=
  rows.insertionSort bySecondsDesc

/-- Lines 147-235 of `load_admin`, reduced to its data flow: on an empty
fetch result the function returns before building anything (zero rows);
otherwise it builds and sorts the per-agent report. -/
def loadAdminReport (df : List QEvent) (now maxGap : Int) : List ReportRow :=
  if df.isEmpty then [] else sortReport (reportRows df now maxGap)

/-- Lines 17-26, `execute_query`: a failing fetch is caught and turned into an
empty DataFrame; a successful one returns its rows. -/
def execute_query (result : Except String (List QEvent)) : List QEvent :=
  match result with
  | .ok df => df
  | .error _ => []

/-- The spec's §4.2 presence classifier for one queue, as the spec words it
(this definition follows the spec, to be compared with `isInLine` from the
source): restrict to events dated today for this agent and queue, take the
chronologically last, on-queue iff it is `ADDMEMBER`. -/
def specOnQueue (events : List QEvent) (today : Int) (a q : String) : Bool :=
  match sortByTimeDesc (events.filter
      (fun e => (dateOf e.time == today) && (e.agent == a) && (e.queuename == q))) with
  | [] => false
  | e :: _ => e.event == .addmember

/-- The spec's §4.2 aggregate, as the spec words it: an agent is "in line"
iff on queue for at least one queue they appear in today. -/
def specInLine (events : List QEvent) (today : Int) (a : String) : Bool :=
  (uniq ((events.filter (fun e => (dateOf e.time == today) && (e.agent == a))).map
      (fun e => e.queuename))).any (fun q => specOnQueue events today a q)

/-! ### Helper lemmas -/

theorem mem_uniqAux (l : List String) (a : String) :
    ∀ seen, a ∈ uniqAux l seen ↔ a ∈ l ∧ a ∉ seen := by
  induction l with
  | nil => intro seen; simp [uniqAux]
  | cons x xs ih =>
    intro seen
    rcases eq_or_ne a x with rfl | hax
    · by_cases hx : a ∈ seen <;> simp [uniqAux, hx, ih]
    · by_cases hx : x ∈ seen <;> simp [uniqAux, hx, ih, hax]

theorem mem_uniq (l : List String) (a : String) : a ∈ uniq l ↔ a ∈ l := by
  simp [uniq, mem_uniqAux]

theorem le_firstAddTime {t now : Int} {es : List QEvent}
    (hb : ∀ e ∈ es, t ≤ e.time) (hn : t ≤ now) : t ≤ firstAddTime es now := by
  induction es with
  | nil => simpa [firstAddTime]
  | cons e rest ih =>
    simp only [firstAddTime]
    split
    · exact hb e (List.mem_cons_self ..)
    · exact ih fun x hx => hb x (List.mem_cons_of_mem _ hx)

theorem queueIntervals_leaves (es : List QEvent) (now : Int) :
    (queueIntervals es now).map (fun iv => iv.leave_time)
      = (es.filter (fun e => e.event == EventKind.removemember)).map (fun e => e.time) := by
  induction es with
  | nil => rfl
  | cons e rest ih =>
    by_cases he : e.event = EventKind.removemember <;>
      simp [queueIntervals, List.filter_cons, he, ih]

theorem queueIntervals_length (es : List QEvent) (now : Int) :
    (queueIntervals es now).length
      = (es.filter (fun e => e.event == EventKind.removemember)).length := by
  have h := congrArg List.length (queueIntervals_leaves es now)
  simpa using h

theorem queueIntervals_le {es : List QEvent} {now : Int}
    (hs : List.Sorted byTime es) (hn : ∀ e ∈ es, e.time ≤ now) :
    ∀ iv ∈ queueIntervals es now, iv.leave_time ≤ iv.rejoin_time := by
  induction es with
  | nil => simp [queueIntervals]
  | cons e rest ih =>
    intro iv hiv
    simp only [queueIntervals, List.mem_append] at hiv
    rcases hiv with h1 | h2
    · split at h1
      · simp only [List.mem_singleton] at h1
        subst h1
        exact le_firstAddTime (fun x hx => List.rel_of_sorted_cons hs x hx)
          (hn e (List.mem_cons_self ..))
      · simp at h1
    · exact ih hs.of_cons (fun x hx => hn x (List.mem_cons_of_mem _ hx)) iv h2

theorem queueIntervals_leaves_sorted {es : List QEvent} (now : Int)
    (hs : List.Sorted byTime es) :
    List.Sorted (· ≤ ·) ((queueIntervals es now).map (fun iv => iv.leave_time)) := by
  rw [queueIntervals_leaves]
  exact (hs.filter _).map _ fun a b h => h

theorem queueOutTime_eq_sum (es : List QEvent) (now maxGap : Int) :
    queueOutTime es now maxGap =
      ((queueIntervals es now).map
        (fun iv => if iv.rejoin_time - iv.leave_time < maxGap
          then iv.rejoin_time - iv.leave_time else 0)).sum := by
  induction es with
  | nil => rfl
  | cons e rest ih =>
    by_cases he : e.event = EventKind.removemember <;>
      simp [queueOutTime, queueIntervals, he, ih]

theorem queueOutTime_of_no_remove {es : List QEvent}
    (h : ∀ e ∈ es, e.event ≠ EventKind.removemember) (now maxGap : Int) :
    queueOutTime es now maxGap = 0 := by
  induction es with
  | nil => rfl
  | cons e rest ih =>
    have he := h e (List.mem_cons_self ..)
    simp [queueOutTime, he, ih fun x hx => h x (List.mem_cons_of_mem _ hx)]

theorem foldl_add_eq_sum {α : Type} (f : α → Int) (l : List α) :
    ∀ c : Int, l.foldl (fun acc x => acc + f x) c = c + (l.map f).sum := by
  induction l with
  | nil => intro c; simp
  | cons x xs ih =>
    intro c
    simp only [List.foldl_cons, List.map_cons, List.sum_cons, ih]
    ring

theorem isInLine_eq_of_max {events : List QEvent} {a : String} {e : QEvent}
    (he : e ∈ agentEvents events a)
    (hmax : ∀ x ∈ agentEvents events a, x.time < e.time ∨ x = e) :
    isInLine events a = (e.event == EventKind.addmember) := by
  rcases hh : sortByTimeDesc (agentEvents events a) with _ | ⟨h0, t⟩
  · exfalso
    have hp := List.perm_insertionSort byTimeDesc (agentEvents events a)
    rw [show (agentEvents events a).insertionSort byTimeDesc
        = sortByTimeDesc (agentEvents events a) from rfl, hh] at hp
    rw [hp.symm.eq_nil] at he
    exact absurd he (List.not_mem_nil e)
  · have hp := List.perm_insertionSort byTimeDesc (agentEvents events a)
    rw [show (agentEvents events a).insertionSort byTimeDesc
        = sortByTimeDesc (agentEvents events a) from rfl, hh] at hp
    have hs := List.sorted_insertionSort byTimeDesc (agentEvents events a)
    rw [show (agentEvents events a).insertionSort byTimeDesc
        = sortByTimeDesc (agentEvents events a) from rfl, hh] at hs
    have h0mem : h0 ∈ agentEvents events a := hp.mem_iff.mp (List.mem_cons_self ..)
    have h0e : h0 = e := by
      rcases hmax h0 h0mem with hlt | heq
      · have hemem : e ∈ h0 :: t := hp.mem_iff.mpr he
        rcases List.mem_cons.mp hemem with heqr | het
        · exact heqr.symm
        · have hle : byTimeDesc h0 e := List.rel_of_sorted_cons hs e het
          exact absurd hlt (not_lt.mpr hle)
      · exact heq
    unfold isInLine
    rw [hh, h0e]

theorem mem_inLineAgents {events : List QEvent} {today : Int} {a : String} :
    a ∈ inLineAgents events today ↔
      ((∃ e ∈ events, dateOf e.time = today ∧ e.agent = a) ∧ isInLine events a = true) := by
  unfold inLineAgents
  rw [List.mem_filter]
  constructor
  · rintro ⟨h1, h2⟩
    refine ⟨?_, h2⟩
    rcases List.mem_map.mp ((mem_uniq _ _).mp h1) with ⟨e, hef, hea⟩
    have hf := List.mem_filter.mp hef
    exact ⟨e, hf.1, by simpa using hf.2, hea⟩
  · rintro ⟨⟨e, hee, hd, ha⟩, h2⟩
    refine ⟨(mem_uniq _ _).mpr (List.mem_map.mpr ⟨e, ?_, ha⟩), h2⟩
    exact List.mem_filter.mpr ⟨hee, by simpa using hd⟩

theorem reportedSeconds_nonneg (T : Int) : 0 ≤ reportedSeconds T := by
  unfold reportedSeconds
  split
  · exact Int.ofNat_nonneg _
  · exact le_refl 0

theorem reportedSeconds_eq_mod {T : Int} (hT : 0 ≤ T) :
    reportedSeconds T = Int.ofNat (T.toNat % 86400) := by
  unfold reportedSeconds
  rw [if_pos hT]
  show Int.ofNat (T.toNat % 86400 / 3600 * 3600 + T.toNat % 3600 / 60 * 60 + T.toNat % 60) = _
  congr 1
  omega

theorem mem_reportRows {events : List QEvent} {now maxGap : Int} {r : ReportRow}
    (hr : r ∈ reportRows events now maxGap) :
    ∃ a, r = ⟨a, reportedSeconds (agentOutTime events a now maxGap),
        timedeltaStr (reportedSeconds (agentOutTime events a now maxGap)).toNat⟩ := by
  rcases List.mem_map.mp hr with ⟨a, _, ha⟩
  exact ⟨a, ha.symm⟩

theorem loadAdminReport_sorted (events : List QEvent) (now maxGap : Int) :
    List.Sorted bySecondsDesc (loadAdminReport events now maxGap) := by
  unfold loadAdminReport
  split
  · exact List.sorted_nil
  · exact List.sorted_insertionSort bySecondsDesc _

theorem mem_loadAdminReport {events : List QEvent} {now maxGap : Int} {r : ReportRow}
    (hr : r ∈ loadAdminReport events now maxGap) :
    ∃ a, r = ⟨a, reportedSeconds (agentOutTime events a now maxGap),
        timedeltaStr (reportedSeconds (agentOutTime events a now maxGap)).toNat⟩ := by
  unfold loadAdminReport sortReport at hr
  split at hr
  · simp at hr
  · exact mem_reportRows ((List.perm_insertionSort bySecondsDesc _).mem_iff.mp hr)

/-! ### Claims -/

/-- Claim C1 counterexample: on the events LEAVE at 0, LEAVE at 10, JOIN at 30
on one queue (now 1000, gap cutoff 14400), the scan opens two intervals, one
per LEAVE, both closed by the same JOIN, and the total counts both durations
(50 seconds), not the single earliest interval once (30 seconds) as the claim
asserts. -/
theorem C1_counterexample :
    queueIntervals
        [⟨0, "a", .removemember, "q"⟩, ⟨10, "a", .removemember, "q"⟩,
          ⟨30, "a", .addmember, "q"⟩] 1000
      = [⟨0, 30⟩, ⟨10, 30⟩]
    ∧ queueOutTime
        [⟨0, "a", .removemember, "q"⟩, ⟨10, "a", .removemember, "q"⟩,
          ⟨30, "a", .addmember, "q"⟩] 1000 14400 = 50 :=
  ⟨by decide, by decide⟩

/-- Claim C1 (amended): for a single agent and queue, when two LEAVE events at
t1 and t2 are followed by a JOIN at t3 with no intervening JOIN, the second
LEAVE is not a no-op: each LEAVE opens its own interval, both intervals are
closed by the same next JOIN, and both durations are added to the off-queue
total (when each is below the gap cutoff), so the pair contributes
(t3 - t1) + (t3 - t2). -/
theorem C1_amended (t1 t2 t3 now maxGap : Int) (a q : String)
    (h1 : t3 - t1 < maxGap) (h2 : t3 - t2 < maxGap) :
    queueIntervals
        [⟨t1, a, .removemember, q⟩, ⟨t2, a, .removemember, q⟩, ⟨t3, a, .addmember, q⟩] now
      = [⟨t1, t3⟩, ⟨t2, t3⟩]
    ∧ queueOutTime
        [⟨t1, a, .removemember, q⟩, ⟨t2, a, .removemember, q⟩, ⟨t3, a, .addmember, q⟩]
        now maxGap = (t3 - t1) + (t3 - t2) := by
  refine ⟨by simp [queueIntervals, firstAddTime], ?_⟩
  simp [queueOutTime, firstAddTime, h1, h2]

/-- Witness for the amended C1, at LEAVE 0, LEAVE 10, JOIN 30, now 1000, gap
cutoff 14400. -/
theorem C1_witness :
    queueIntervals
        [⟨0, "a", .removemember, "q"⟩, ⟨10, "a", .removemember, "q"⟩,
          ⟨30, "a", .addmember, "q"⟩] 1000
      = [⟨0, 30⟩, ⟨10, 30⟩]
    ∧ queueOutTime
        [⟨0, "a", .removemember, "q"⟩, ⟨10, "a", .removemember, "q"⟩,
          ⟨30, "a", .addmember, "q"⟩] 1000 14400 = (30 - 0) + (30 - 10) :=
  C1_amended 0 10 30 1000 14400 "a" "q" (by decide) (by decide)

/-- Claim C2 counterexample: on the events LEAVE at 0, LEAVE at 100, JOIN at
200 on one queue, the two reconstructed intervals are [0, 200] and [100, 200],
which overlap: the reconstructed intervals are not pairwise disjoint. -/
theorem C2_counterexample :
    queueIntervals
        [⟨0, "a", .removemember, "q"⟩, ⟨100, "a", .removemember, "q"⟩,
          ⟨200, "a", .addmember, "q"⟩] 1000
      = [⟨0, 200⟩, ⟨100, 200⟩]
    ∧ ivDisjoint ⟨0, 200⟩ ⟨100, 200⟩ = false :=
  ⟨by decide, by decide⟩

/-- Claim C2 (amended): for time-sorted events all at or before now, the
reconstructed intervals are ordered by leave time and each closes no earlier
than it opens, and there is exactly one interval per LEAVE event (each LEAVE
is used by exactly one pairing, closed at the first JOIN following it); but
intervals arising from consecutive LEAVEs with no JOIN between them overlap,
so pairwise disjointness does not hold. -/
theorem C2_amended {es : List QEvent} {now : Int}
    (hs : List.Sorted byTime es) (hn : ∀ e ∈ es, e.time ≤ now) :
    List.Sorted (· ≤ ·) ((queueIntervals es now).map (fun iv => iv.leave_time))
    ∧ (∀ iv ∈ queueIntervals es now, iv.leave_time ≤ iv.rejoin_time)
    ∧ (queueIntervals es now).length
        = (es.filter (fun e => e.event == EventKind.removemember)).length :=
  ⟨queueIntervals_leaves_sorted now hs, queueIntervals_le hs hn, queueIntervals_length es now⟩

/-- Witness for the amended C2, at LEAVE 0, JOIN 5, now 10. -/
theorem C2_witness :
    List.Sorted (· ≤ ·)
      ((queueIntervals [⟨0, "a", .removemember, "q"⟩, ⟨5, "a", .addmember, "q"⟩] 10).map
        (fun iv => iv.leave_time))
    ∧ (∀ iv ∈ queueIntervals [⟨0, "a", .removemember, "q"⟩, ⟨5, "a", .addmember, "q"⟩] 10,
        iv.leave_time ≤ iv.rejoin_time)
    ∧ (queueIntervals [⟨0, "a", .removemember, "q"⟩, ⟨5, "a", .addmember, "q"⟩] 10).length
        = (([⟨0, "a", .removemember, "q"⟩, ⟨5, "a", .addmember, "q"⟩] : List QEvent).filter
            (fun e => e.event == EventKind.removemember)).length :=
  C2_amended (by decide) (by decide)

/-- Claim C3 counterexample: with the same-day events JOIN on queue Q1 at 10
and LEAVE on queue Q2 at 20 for agent a, the spec's per-queue classifier
reports a in line (the last event of Q1 is JOIN), while the code's classifier
takes the single chronologically last event across all queues (the Q2 LEAVE)
and reports a not in line. -/
theorem C3_counterexample :
    specInLine [⟨10, "a", .addmember, "Q1"⟩, ⟨20, "a", .removemember, "Q2"⟩] 0 "a" = true
    ∧ isInLine [⟨10, "a", .addmember, "Q1"⟩, ⟨20, "a", .removemember, "Q2"⟩] "a" = false :=
  ⟨by decide, by decide⟩

/-- Claim C3 (amended): the in-line listing contains exactly the agents having
at least one event dated today and a true classifier output; the classifier
neither splits by queue nor restricts to today: it takes the agent's
chronologically last event over the whole fetched window across all queues
(for a unique-latest event e, the agent is classified in line iff e is a
JOIN). -/
theorem C3_amended :
    (∀ (events : List QEvent) (today : Int) (a : String),
      a ∈ inLineAgents events today ↔
        ((∃ e ∈ events, dateOf e.time = today ∧ e.agent = a) ∧ isInLine events a = true))
    ∧ (∀ (events : List QEvent) (a : String) (e : QEvent),
        e ∈ agentEvents events a →
        (∀ x ∈ agentEvents events a, x.time < e.time ∨ x = e) →
        isInLine events a = (e.event == EventKind.addmember)) :=
  ⟨fun _ _ _ => mem_inLineAgents, fun _ _ _ he hmax => isInLine_eq_of_max he hmax⟩

/-- Witness for the amended C3: agent a with a lone JOIN at 10 (agent b owns
the later LEAVE) is classified in line and listed for day 0. -/
theorem C3_witness :
    isInLine [⟨10, "a", .addmember, "Q1"⟩, ⟨20, "b", .removemember, "Q2"⟩] "a" = true
    ∧ "a" ∈ inLineAgents [⟨10, "a", .addmember, "Q1"⟩, ⟨20, "b", .removemember, "Q2"⟩] 0 := by
  have h1 := C3_amended.2 [⟨10, "a", .addmember, "Q1"⟩, ⟨20, "b", .removemember, "Q2"⟩] "a"
      ⟨10, "a", .addmember, "Q1"⟩ (by decide) (by decide)
  have h2 := (C3_amended.1 [⟨10, "a", .addmember, "Q1"⟩, ⟨20, "b", .removemember, "Q2"⟩] 0 "a").mpr
      ⟨⟨⟨10, "a", .addmember, "Q1"⟩, by decide, by decide, by decide⟩, by rw [h1]; decide⟩
  exact ⟨by rw [h1]; decide, h2⟩

/-- Claim C4 counterexample: on an empty event list the reconstruction does
yield zero off-queue time, but the agent is not reported as currently on
queue: the classifier yields false and the in-line listing is empty. -/
theorem C4_counterexample :
    agentOutTime [] "a" 1000 14400 = 0
    ∧ isInLine [] "a" = false
    ∧ inLineAgents [] 0 = [] :=
  ⟨by decide, by decide, by decide⟩

/-- Claim C4 (amended): an agent with no events in the reporting window
contributes zero off-queue time, is classified not in line, and never appears
in the in-line listing; an empty window yields a zero-row report. No data is
treated as "not in line"/absent, not as "never removed". -/
theorem C4_amended {events : List QEvent} {a : String}
    (h : agentEvents events a = []) :
    (∀ now maxGap : Int, agentOutTime events a now maxGap = 0)
    ∧ isInLine events a = false
    ∧ (∀ today : Int, a ∉ inLineAgents events today)
    ∧ (∀ now maxGap : Int, loadAdminReport [] now maxGap = []) := by
  have hm : memberEvents events a = [] := by
    rw [memberEvents, h]; rfl
  refine ⟨?_, ?_, ?_, fun _ _ => rfl⟩
  · intro now maxGap
    simp [agentOutTime, hm, uniq, uniqAux]
  · simp [isInLine, h, sortByTimeDesc]
  · intro today hmem
    rcases mem_inLineAgents.mp hmem with ⟨⟨e, hee, _, hea⟩, _⟩
    have hef : e ∈ agentEvents events a := List.mem_filter.mpr ⟨hee, by simp [hea]⟩
    rw [h] at hef
    exact absurd hef (List.not_mem_nil e)

/-- Witness for the amended C4: agent a has no events in a window holding only
an event of agent b. -/
theorem C4_witness :
    agentOutTime [⟨5, "b", .addmember, "q"⟩] "a" 1 2 = 0
    ∧ isInLine [⟨5, "b", .addmember, "q"⟩] "a" = false
    ∧ "a" ∉ inLineAgents [⟨5, "b", .addmember, "q"⟩] 0
    ∧ loadAdminReport [] 1 2 = [] := by
  have h := @C4_amended [⟨5, "b", .addmember, "q"⟩] "a" (by decide)
  exact ⟨h.1 1 2, h.2.1, h.2.2.1 0, h.2.2.2 1 2⟩

/-- Claim C5 (confirmed): a closed off-queue interval is added to the running
total iff its duration is strictly below the gap cutoff, and an interval with
no subsequent JOIN is closed at now and passed through the same filter: a
lone LEAVE at t contributes now - t when now - t < maxGap and 0 when
now - t is at least maxGap. -/
theorem C5_confirmed :
    (∀ (es : List QEvent) (now maxGap : Int),
      queueOutTime es now maxGap =
        ((queueIntervals es now).map
          (fun iv => if iv.rejoin_time - iv.leave_time < maxGap
            then iv.rejoin_time - iv.leave_time else 0)).sum)
    ∧ (∀ (t now maxGap : Int) (a q : String),
        queueOutTime [⟨t, a, .removemember, q⟩] now maxGap
          = if now - t < maxGap then now - t else 0) :=
  ⟨queueOutTime_eq_sum, fun t now maxGap a q => by simp [queueOutTime, firstAddTime]⟩

/-- Claim C6 (confirmed): for an event window with zero LEAVE events the
off-queue total is 0 for every queue and for the agent as a whole; JOIN
events with no open interval contribute nothing (the scan is a total
function, so no exception is possible). -/
theorem C6_confirmed {events : List QEvent}
    (h : ∀ e ∈ events, e.event ≠ EventKind.removemember) :
    (∀ (a q : String) (now maxGap : Int),
      queueOutTime (queueEventsOf (memberEvents events a) q) now maxGap = 0)
    ∧ (∀ (a : String) (now maxGap : Int), agentOutTime events a now maxGap = 0) := by
  have hq : ∀ (a q : String), ∀ e ∈ queueEventsOf (memberEvents events a) q, e ∈ events := by
    intro a q e hme
    have h1 : e ∈ (memberEvents events a).filter (fun e => e.queuename == q) :=
      (List.perm_insertionSort byTime _).mem_iff.mp hme
    have h2 : e ∈ memberEvents events a := (List.mem_filter.mp h1).1
    have h3 : e ∈ agentEvents events a := (List.perm_insertionSort byTime _).mem_iff.mp h2
    exact (List.mem_filter.mp h3).1
  refine ⟨?_, ?_⟩
  · intro a q now maxGap
    exact queueOutTime_of_no_remove (fun e he => h e (hq a q e he)) now maxGap
  · intro a now maxGap
    show (uniq ((memberEvents events a).map (fun e => e.queuename))).foldl
        (fun acc q => acc + queueOutTime (queueEventsOf (memberEvents events a) q) now maxGap)
        0 = 0
    rw [foldl_add_eq_sum, zero_add]
    apply List.sum_eq_zero
    intro x hx
    rcases List.mem_map.mp hx with ⟨q, _, rfl⟩
    exact queueOutTime_of_no_remove (fun e he => h e (hq a q e he)) now maxGap

/-- Witness for C6 on a window holding a single JOIN event. -/
theorem C6_witness :
    queueOutTime (queueEventsOf (memberEvents [⟨5, "a", .addmember, "q"⟩] "a") "q") 100 14400 = 0
    ∧ agentOutTime [⟨5, "a", .addmember, "q"⟩] "a" 100 14400 = 0 := by
  have h := @C6_confirmed [⟨5, "a", .addmember, "q"⟩] (by decide)
  exact ⟨h.1 "a" "q" 100 14400, h.2 "a" 100 14400⟩

/-- Claim C7 (confirmed): the agent-level total is the sum of per-queue totals
computed independently for each queue name, with no deduplication of
wall-clock overlap; concretely, an agent off queue A for 10 seconds and off
queue B for 20 seconds in overlapping wall-clock windows totals 30 seconds. -/
theorem C7_confirmed :
    (∀ (events : List QEvent) (a : String) (now maxGap : Int),
      agentOutTime events a now maxGap =
        ((uniq ((memberEvents events a).map (fun e => e.queuename))).map
          (fun q => queueOutTime (queueEventsOf (memberEvents events a) q) now maxGap)).sum)
    ∧ agentOutTime
        [⟨0, "a", .removemember, "A"⟩, ⟨0, "a", .removemember, "B"⟩,
          ⟨10, "a", .addmember, "A"⟩, ⟨20, "a", .addmember, "B"⟩] "a" 100 14400 = 30
    ∧ queueOutTime
        (queueEventsOf (memberEvents
          [⟨0, "a", .removemember, "A"⟩, ⟨0, "a", .removemember, "B"⟩,
            ⟨10, "a", .addmember, "A"⟩, ⟨20, "a", .addmember, "B"⟩] "a") "A") 100 14400 = 10
    ∧ queueOutTime
        (queueEventsOf (memberEvents
          [⟨0, "a", .removemember, "A"⟩, ⟨0, "a", .removemember, "B"⟩,
            ⟨10, "a", .addmember, "A"⟩, ⟨20, "a", .addmember, "B"⟩] "a") "B") 100 14400 = 20 := by
  refine ⟨?_, by decide, by decide, by decide⟩
  intro events a now maxGap
  show (uniq ((memberEvents events a).map (fun e => e.queuename))).foldl
      (fun acc q => acc + queueOutTime (queueEventsOf (memberEvents events a) q) now maxGap)
      0 = _
  rw [foldl_add_eq_sum, zero_add]

/-- Claim C8 (code bug): the seconds column is a nonnegative integer and the
rows are sorted descending by it, but the formatted column is the pandas
Timedelta string "D days HH:MM:SS", not the "HH:MM:SS" format the code's own
comment asks for: at the failing input LEAVE at 0 / JOIN at 30, the single
row is formatted "0 days 00:00:30". -/
theorem C8_bug :
    loadAdminReport [⟨0, "a", .removemember, "q"⟩, ⟨30, "a", .addmember, "q"⟩] 1000 14400
      = [⟨"a", 30, "0 days 00:00:30"⟩]
    ∧ isHHMMSS "0 days 00:00:30" = false
    ∧ (∀ (events : List QEvent) (now maxGap : Int),
        List.Sorted bySecondsDesc (loadAdminReport events now maxGap)
        ∧ ∀ r ∈ loadAdminReport events now maxGap,
            0 ≤ r.seconds ∧ r.formatted = timedeltaStr r.seconds.toNat) := by
  refine ⟨by decide, by decide, ?_⟩
  intro events now maxGap
  refine ⟨loadAdminReport_sorted events now maxGap, ?_⟩
  intro r hr
  rcases mem_loadAdminReport hr with ⟨a, rfl⟩
  exact ⟨reportedSeconds_nonneg _, rfl⟩

/-- Witness for C8 at the window LEAVE 0 / JOIN 40 for agent b. -/
theorem C8_witness :
    List.Sorted bySecondsDesc
      (loadAdminReport [⟨0, "b", .removemember, "p"⟩, ⟨40, "b", .addmember, "p"⟩] 2000 14400)
    ∧ (0 ≤ (⟨"b", 40, "0 days 00:00:40"⟩ : ReportRow).seconds
        ∧ (⟨"b", 40, "0 days 00:00:40"⟩ : ReportRow).formatted
            = timedeltaStr (⟨"b", 40, "0 days 00:00:40"⟩ : ReportRow).seconds.toNat) := by
  have h := C8_bug.2.2 [⟨0, "b", .removemember, "p"⟩, ⟨40, "b", .addmember, "p"⟩] 2000 14400
  refine ⟨h.1, h.2 ⟨"b", 40, "0 days 00:00:40"⟩ ?_⟩
  rw [show loadAdminReport [⟨0, "b", .removemember, "p"⟩, ⟨40, "b", .addmember, "p"⟩] 2000 14400
      = [⟨"b", 40, "0 days 00:00:40"⟩] from by decide]
  exact List.mem_singleton_self _

/-- Claim C9 (confirmed): a failed event fetch is caught and returned as an
empty DataFrame, and the report built on it has zero rows and an empty
in-line listing; the report is a pure function of the fetched rows, so no
partial reconstruction state survives a failure. -/
theorem C9_confirmed :
    ∀ (msg : String) (now maxGap : Int),
      execute_query (Except.error msg) = []
      ∧ loadAdminReport (execute_query (Except.error msg)) now maxGap = []
      ∧ inLineAgents (execute_query (Except.error msg)) (dateOf now) = [] :=
  fun _ _ _ => ⟨rfl, rfl, rfl⟩

/-- Claim C10 (confirmed): the reported seconds value is rebuilt from only the
hour, minute and second components of the accumulated duration, so for a
total of 24 hours or more it equals the true total modulo 86400 and is
strictly smaller than the true total: whole days are silently dropped. -/
theorem C10_confirmed {T : Int} (h : (86400 : Int) ≤ T) :
    reportedSeconds T = Int.ofNat (T.toNat % 86400) ∧ reportedSeconds T < T := by
  have h0 : (0 : Int) ≤ T := le_trans (by decide) h
  refine ⟨reportedSeconds_eq_mod h0, ?_⟩
  rw [reportedSeconds_eq_mod h0]
  have h1 : T.toNat % 86400 < 86400 := Nat.mod_lt _ (by decide)
  exact lt_of_lt_of_le (Int.ofNat_lt.mpr h1) h

/-- Witness for C10 at a 25-hour total: 90000 seconds report as 3600. -/
theorem C10_witness :
    reportedSeconds 90000 = Int.ofNat (Int.toNat 90000 % 86400)
    ∧ reportedSeconds 90000 < 90000 :=
  @C10_confirmed 90000 (by decide)
